import Mathlib

/-!
Shallow embedding of the realtime speech-loop core of `vrchat-eidolon`
(Python), together with proofs about the claims of its specification.

Byte buffers are modelled as `List UInt8`; Python `bytearray` mutation
becomes explicit state passing.  Monotonic-clock readings
(`monotonic_ms`) are modelled as `Int` values supplied by the
environment.  Python `set` objects are modelled as lists used only
through membership.
-/

namespace VrchatEidolon

/-! ## Playback sink — `vrchat_eidolon/io/audio_out.py`, class `AudioOutputSink` -/

namespace AudioOut

/-- State of `AudioOutputSink`: the main playback buffer `_buf`, the
sub-frame alignment tail `_tail`, the epoch counter `_play_epoch`, the
pending play epoch `_awaiting_play_epoch`, and the last-non-silent
timestamp `_last_non_silent_s` (modelled in milliseconds).  The device
channel count comes from `AudioOutputConfig.channels`. -/
structure Sink where
  channels : Nat
  buf : List UInt8
  tail : List UInt8
  playEpoch : Nat
  awaitingPlayEpoch : Option Nat
  lastNonSilentMs : Option Int
  deriving Repr, DecidableEq

/-- A freshly constructed sink (`AudioOutputSink.__init__`). -/
def Sink.init (channels : Nat) : Sink :=
  { channels := channels
    buf := []
    tail := []
    playEpoch := 0
    awaitingPlayEpoch := none
    lastNonSilentMs := none }

/-- Frame size in bytes: `2 * self._cfg.channels` (PCM16LE). -/
def Sink.frameBytes (s : Sink) : Nat := 2 * s.channels

/-- Method `AudioOutputSink.append_pcm16`.  Empty input returns early.
Otherwise the payload is appended to the tail, whole frames are moved
from the tail into the main buffer, and a fresh play epoch is issued
iff the buffer was empty, is now non-empty, and no epoch is pending. -/
def appendPcm16 (s : Sink) (pcm16 : List UInt8) : Sink × Option Nat :=
  if pcm16 = [] then (s, none)
  else
    let frameBytes := 2 * s.channels
    let wasEmpty := s.buf = []
    let tail1 := s.tail ++ pcm16
    let n := tail1.length / frameBytes * frameBytes
    let s1 : Sink := { s with buf := s.buf ++ tail1.take n, tail := tail1.drop n }
    if wasEmpty ∧ s1.buf ≠ [] ∧ s.awaitingPlayEpoch = none then
      ({ s1 with playEpoch := s.playEpoch + 1
                 awaitingPlayEpoch := some (s.playEpoch + 1) },
       some (s.playEpoch + 1))
    else (s1, none)

/-- The `audioop.lin2lin(pcm24, 3, 2)` conversion used by
`append_pcm24`: each little-endian 3-byte sample is shifted right by
8 bits, i.e. its low byte is discarded. -/
def lin2lin3to2 : List UInt8 → List UInt8
  | _b0 :: b1 :: b2 :: rest => b1 :: b2 :: lin2lin3to2 rest
  | _ => []

/-- Method `AudioOutputSink.append_pcm24`: validates that the length is
a multiple of 3 (raising `ValueError` otherwise), down-converts to
PCM16LE and delegates to `append_pcm16`. -/
def appendPcm24 (s : Sink) (pcm24 : List UInt8) :
    Except String (Sink × Option Nat) :=
  if pcm24.length % 3 ≠ 0 then
    .error ("pcm24 length must be multiple of 3, got " ++ toString pcm24.length)
  else
    .ok (appendPcm16 s (lin2lin3to2 pcm24))

/-- Method `AudioOutputSink.pending_bytes`. -/
def pendingBytes (s : Sink) : Nat := s.buf.length + s.tail.length

/-- Method `AudioOutputSink.is_audible` with the caller-supplied
window, evaluated at monotonic time `nowMs`. -/
def isAudible (s : Sink) (withinMs : Int) (nowMs : Int) : Bool :=
  match s.lastNonSilentMs with
  | none => false
  | some t => nowMs - t ≤ withinMs

/-- Method `AudioOutputSink.flush`: clears the main buffer, the tail
and the pending epoch, bumps the epoch counter, and returns the number
of dropped bytes. -/
def flush (s : Sink) : Sink × Nat :=
  ({ s with buf := []
            tail := []
            awaitingPlayEpoch := none
            playEpoch := s.playEpoch + 1 },
   s.buf.length + s.tail.length)

/-- The device callback `_callback` of `AudioOutputSink.start`, asked
for `want` bytes at monotonic time `nowMs`.  Returns the updated sink,
the bytes written to `outdata` (zero-padded to `want`), and the play
epoch signalled through the queue, if any. -/
def callback (s : Sink) (want : Nat) (nowMs : Int) :
    Sink × List UInt8 × Option Nat :=
  let frameBytes := 2 * s.channels
  let take0 := if s.buf = [] then 0 else min want s.buf.length
  let got := take0 / frameBytes * frameBytes
  let s1 : Sink := { s with buf := s.buf.drop got }
  let out := s.buf.take got ++ List.replicate (want - got) (0 : UInt8)
  if got > 0 then
    let s2 : Sink := { s1 with lastNonSilentMs := some nowMs }
    match s2.awaitingPlayEpoch with
    | some epoch => ({ s2 with awaitingPlayEpoch := none }, out, some epoch)
    | none => (s2, out, none)
  else (s1, out, none)

/-- The stated buffer invariant of the playback sink: the main buffer
holds whole frames only and the tail is strictly shorter than one
frame. -/
def SinkInv (s : Sink) : Prop :=
  s.buf.length % (2 * s.channels) = 0 ∧ s.tail.length < 2 * s.channels

end AudioOut

/-! ## Rate/channel converter — `vrchat_eidolon/io/rate_convert.py`,
class `PcmRateConverter` (built on the stdlib `audioop` module) -/

namespace RateConvert

/-- Little-endian byte-list to unsigned value. -/
def leNat : List UInt8 → Nat
  | [] => 0
  | b :: rest => b.toNat + 256 * leNat rest

/-- Decode a little-endian signed sample from its bytes (two's
complement over `8 * length` bits). -/
def sampleToInt (bytes : List UInt8) : Int :=
  let n := leNat bytes
  if 2 * n < 2 ^ (8 * bytes.length) then (n : Int)
  else (n : Int) - 2 ^ (8 * bytes.length)

/-- Encode a value as `w` little-endian bytes (two's complement). -/
def natToLe : Nat → Nat → List UInt8
  | 0, _ => []
  | w + 1, n => UInt8.ofNat (n % 256) :: natToLe w (n / 256)

/-- Encode a signed sample into `w` little-endian bytes. -/
def intToSample (w : Nat) (v : Int) : List UInt8 :=
  natToLe w (v % (2 ^ (8 * w) : Nat)).toNat

/-- The `fbound` clamp of `audioop.c`, applied to `val = (l + r) / 2`
represented by its doubled value `v2 = l + r`: values above the
maximum clamp down, values below `minval + 1` clamp to `minval`, and
the exact result is floored. -/
def fboundHalf (w : Nat) (v2 : Int) : Int :=
  let maxv : Int := 2 ^ (8 * w - 1) - 1
  let minv : Int := -(2 ^ (8 * w - 1) : Int)
  if v2 > 2 * maxv then maxv
  else if v2 < 2 * (minv + 1) then minv
  else Int.fdiv v2 2

/-- Frame loop of `audioop.tomono(data, w, 0.5, 0.5)`: each stereo
frame of two `w`-byte samples becomes one sample `fbound(l*0.5 + r*0.5)`. -/
def tomonoAligned (w : Nat) (data : List UInt8) : List UInt8 :=
  if _h : 0 < w ∧ 2 * w ≤ data.length then
    intToSample w
        (fboundHalf w (sampleToInt (data.take w) + sampleToInt ((data.drop w).take w)))
      ++ tomonoAligned w (data.drop (2 * w))
  else []
termination_by data.length
decreasing_by
  simp only [List.length_drop]
  omega

/-- Method `audioop.tomono` as called with factors `(0.5, 0.5)`,
including the parameter checks of `audioop_check_parameters`. -/
def tomono (w : Nat) (data : List UInt8) : Except String (List UInt8) :=
  if ¬(w = 1 ∨ w = 2 ∨ w = 3 ∨ w = 4) then .error "Size should be 1, 2, 3 or 4"
  else if data.length % w ≠ 0 then .error "not a whole number of frames"
  else if data.length % (w * 2) ≠ 0 then .error "not a whole number of frames"
  else .ok (tomonoAligned w data)

/-- Frame loop of `audioop.tostereo(data, w, 1.0, 1.0)`: with unit
factors `fbound` is the identity on in-range samples, so each `w`-byte
sample is duplicated. -/
def tostereoAligned (w : Nat) (data : List UInt8) : List UInt8 :=
  if _h : 0 < w ∧ w ≤ data.length then
    data.take w ++ data.take w ++ tostereoAligned w (data.drop w)
  else []
termination_by data.length
decreasing_by
  simp only [List.length_drop]
  omega

/-- Method `audioop.tostereo` as called with factors `(1.0, 1.0)`,
including the parameter checks of `audioop_check_parameters`. -/
def tostereo (w : Nat) (data : List UInt8) : Except String (List UInt8) :=
  if ¬(w = 1 ∨ w = 2 ∨ w = 3 ∨ w = 4) then .error "Size should be 1, 2, 3 or 4"
  else if data.length % w ≠ 0 then .error "not a whole number of frames"
  else .ok (tostereoAligned w data)

/-- The dataclass `PcmRateConverter`.  The persistent `audioop.ratecv`
filter state `_state` is opaque to the Python code; it is abstracted
here as a type parameter `σ`. -/
structure PcmRateConverter (σ : Type) where
  sampleWidthBytes : Nat
  inChannels : Nat
  inSampleRateHz : Nat
  outChannels : Nat
  outSampleRateHz : Nat
  state : Option σ := none
  deriving Repr, DecidableEq

/-- Channel-conversion step of `PcmRateConverter.convert` (lines
40-47): 2→1 averages via `tomono`, 1→2 duplicates via `tostereo`,
other unequal mappings raise. -/
def channelConvert (σ : Type) (c : PcmRateConverter σ) (data : List UInt8) :
    Except String (List UInt8) :=
  if c.inChannels = 2 ∧ c.outChannels = 1 then tomono c.sampleWidthBytes data
  else if c.inChannels = 1 ∧ c.outChannels = 2 then tostereo c.sampleWidthBytes data
  else if c.inChannels ≠ c.outChannels then
    .error ("Unsupported channel mapping " ++ toString c.inChannels ++ "->"
      ++ toString c.outChannels ++ "; expected 1 or 2")
  else .ok data

/-- Method `PcmRateConverter.convert`.  `ratecv` abstracts
`audioop.ratecv` (arguments: data, width, channel count, in rate, out
rate, state), which is reached only when the rates differ; every claim
under study returns before that call, so the theorems quantify over
the resampling backend.  Errors model the raised `ValueError`s. -/
def convert {σ : Type}
    (ratecv : List UInt8 → Nat → Nat → Nat → Nat → Option σ → List UInt8 × Option σ)
    (c : PcmRateConverter σ) (data : List UInt8) :
    Except String (List UInt8 × PcmRateConverter σ) :=
  if data = [] then .ok ([], c)
  else if c.inChannels ≠ 1 ∧ c.inChannels ≠ 2 then
    .error ("Unsupported in_channels=" ++ toString c.inChannels ++ "; expected 1 or 2")
  else if c.outChannels ≠ 1 ∧ c.outChannels ≠ 2 then
    .error ("Unsupported out_channels=" ++ toString c.outChannels ++ "; expected 1 or 2")
  else
    match channelConvert σ c data with
    | .error e => .error e
    | .ok data1 =>
      if c.inSampleRateHz = c.outSampleRateHz then .ok (data1, c)
      else
        let r := ratecv data1 c.sampleWidthBytes c.outChannels
          c.inSampleRateHz c.outSampleRateHz c.state
        .ok (r.1, { c with state := r.2 })

end RateConvert

/-! ## Microphone capture — `vrchat_eidolon/io/audio_in.py`, class `AudioInput` -/

namespace AudioIn

/-- The blocksize computed in `AudioInput.start`:
`int(self._cfg.sample_rate * self._cfg.chunk_ms / 1000)`.  Python
truncates the (exactly representable) quotient toward zero, which on
naturals is floor division. -/
def blocksize (sampleRate chunkMs : Nat) : Nat :=
  sampleRate * chunkMs / 1000

/-- Python `round(num / den)` on a non-negative exact quotient:
nearest integer, ties to even (banker's rounding).  This follows the
wording of the specification, to be compared with `blocksize`. -/
def specRoundDiv (num den : Nat) : Nat :=
  if 2 * (num % den) < den then num / den
  else if den < 2 * (num % den) then num / den + 1
  else if num / den % 2 = 0 then num / den
  else num / den + 1

/-- Names of the methods and properties defined by
`class AudioInput` in `io/audio_in.py` (its full attribute surface). -/
def audioInputMethodNames : List String :=
  ["__init__", "device", "sample_rate", "channels", "start", "stop",
   "__aenter__", "__aexit__", "chunks"]

/-- Names of the methods and properties defined by
`class ProcessLoopbackInput` in `io/loopback_in.py`. -/
def processLoopbackInputMethodNames : List String :=
  ["__init__", "sample_rate", "channels", "__aenter__", "__aexit__",
   "_pump", "get_chunk", "chunks"]

/-- The attribute the sender task `_sender` in
`llm/qwen_realtime.py` calls on its capture source
(`audio_in.get_chunk(timeout_s=0.2)`). -/
def senderPullMethodName : String := "get_chunk"

/-- Timeout, in seconds scaled by 1000 (i.e. milliseconds), that
`_sender` passes to `get_chunk` (`timeout_s=0.2`). -/
def senderPullTimeoutMs : Nat := 200

end AudioIn

/-! ## Session lifecycle and supervisor backoff —
`vrchat_eidolon/llm/qwen_realtime.py`, `QwenRealtimeClient.run`,
`_rotate_session_timer` and the tail of `_receiver` -/

namespace Supervisor

/-- The close code `_rotate_session_timer` passes to `ws.close` when
the rotation deadline elapses (`code=1000`, normal closure). -/
def rotationCloseCode : Nat := 1000

/-- How the receive task `_receiver` ends once the websocket message
stream is exhausted (which a local `ws.close` causes): it raises
`ConnectionError("websocket receive loop ended")` unconditionally, so
the surrounding `asyncio.TaskGroup` — whose other members `_sender`
and `_play_tracker` loop forever — always propagates an exception out
of `_run_one_session`. -/
def receiverRaisesOnStreamEnd : Bool := true

/-- One iteration of the retry loop in `QwenRealtimeClient.run`,
returning the next backoff in milliseconds: `backoff_s = 0.5` after a
normal return of `_run_one_session`, or
`backoff_s = min(backoff_s * 2, 10.0)` after an exception. -/
def runBackoffStep (backoffMs : Nat) (sessionRaised : Bool) : Nat :=
  if sessionRaised then min (backoffMs * 2) 10000 else 500

/-- Initial backoff of `QwenRealtimeClient.run` (`backoff_s = 0.5`). -/
def initialBackoffMs : Nat := 500

end Supervisor

/-! ## Realtime receiver — `vrchat_eidolon/llm/qwen_realtime.py`,
`_run_one_session` local state, `_receiver`, `_cancel_active_response`,
`_should_barge_in_cancel` -/

namespace Realtime

open AudioOut

/-- The dataclass `TurnTtfa` of `core/clock.py`. -/
structure TurnTtfa where
  turnId : String
  eosProxyMs : Option Int := none
  firstAudioDeltaMs : Option Int := none
  firstAudioPlayedMs : Option Int := none
  deriving Repr, DecidableEq

/-- Ghost tag naming the three TTFA ledger fields, used to log each
assignment the code performs. -/
inductive Field where
  | eos
  | fad
  | played
  deriving Repr, DecidableEq

/-- Outbound protocol events other than `input_audio_buffer.append`. -/
inductive OutEvent where
  | responseCancel
  deriving Repr, DecidableEq

/-- Inbound events dispatched by `_receiver`, tagged with the data the
handlers read.  `audioDelta` carries the base64-decoded payload (the
decode is a bijection on valid wire strings); a `none` payload models
a `delta` field that is not a string.  Monotonic-clock readings taken
by a handler arrive as the event's `now`.  `deviceCallback` is the
playback device pulling `want` bytes on its own thread. -/
inductive Event where
  | errorEvent
  | sessionEvent
  | responseCreated (respId : Option String)
  | responseDone (respId : Option String)
  | speechStarted (now : Int)
  | speechStopped (itemId : Option String) (now : Int)
  | asrCompleted
  | ttsTranscriptDelta
  | audioDelta (raw : Option (List UInt8)) (itemId : Option String)
      (respId : Option String) (now : Int)
  | audioDone
  | unknown
  | deviceCallback (want : Nat) (now : Int)
  | playTrackerWake (now : Int)
  deriving Repr, DecidableEq

/-- Session-local state of `_run_one_session` (the nonlocal variables
its inner tasks share), plus the playback sink, the sink's
play-started queue `_play_started_q` (epochs signalled by the device
callback, awaited by `_play_tracker` via `next_play_started`), and two
ghost logs: `writes` records every assignment to a TTFA ledger field,
`forwarded` records every byte moved out of the inbound alignment
buffer `pcm_tail` toward conversion and playback. -/
structure RecvState where
  turns : String → Option TurnTtfa
  epochToTurn : List (Nat × String)
  activeResponseId : Option String
  cancelledResponseIds : List String
  lastCancelMs : Int
  pcmTail : List UInt8
  sink : Sink
  sent : List OutEvent
  writes : List (String × Field)
  forwarded : List UInt8
  playStartedQ : List Nat

/-- The state at session start (`turns = {}`, `epoch_to_turn = {}`,
`active_response_id = None`, `cancelled_response_ids = set()`,
`last_cancel_ms = 0`, `pcm_tail = bytearray()`), over a freshly
started sink with the given device channel count. -/
def initState (sinkChannels : Nat) : RecvState :=
  { turns := fun _ => none
    epochToTurn := []
    activeResponseId := none
    cancelledResponseIds := []
    lastCancelMs := 0
    pcmTail := []
    sink := Sink.init sinkChannels
    sent := []
    writes := []
    forwarded := []
    playStartedQ := [] }

/-- Python dict assignment `turns[id] = t`. -/
def setTurn (turns : String → Option TurnTtfa) (id : String) (t : TurnTtfa) :
    String → Option TurnTtfa :=
  fun id2 => if id2 = id then some t else turns id2

/-- Lookup in the `epoch_to_turn` dict (keys are unique: play epochs
increase monotonically). -/
def lookupEpoch : List (Nat × String) → Nat → Option String
  | [], _ => none
  | (k, v) :: rest, e => if k = e then some v else lookupEpoch rest e

/-- Key removal of `epoch_to_turn.pop(epoch, None)`. -/
def eraseEpoch (m : List (Nat × String)) (e : Nat) : List (Nat × String) :=
  m.filter (fun p => p.1 != e)

/-- The guard `_should_barge_in_cancel`: audible within 400 ms or
buffered bytes pending. -/
def shouldBargeInCancel (s : RecvState) (now : Int) : Bool :=
  isAudible s.sink 400 now || decide (0 < pendingBytes s.sink)

/-- The coroutine `_cancel_active_response`: debounce within 400 ms,
record the active response in the cancelled set, send one
`response.cancel`, clear the active response, flush the sink, clear
the epoch→turn map. -/
def cancelActiveResponse (s : RecvState) (now : Int) : RecvState :=
  if now - s.lastCancelMs < 400 then s
  else
    let s1 := { s with lastCancelMs := now }
    let s2 :=
      match s1.activeResponseId with
      | some rid =>
        { s1 with cancelledResponseIds := rid :: s1.cancelledResponseIds
                  sent := s1.sent ++ [OutEvent.responseCancel]
                  activeResponseId := none }
      | none => s1
    { s2 with sink := (flush s2.sink).1, epochToTurn := [] }

/-- Body of the `response.audio.delta` handler after the cancelled-set
filter: extend `pcm_tail`, move only whole wire frames onward, convert
(`outConvert` abstracts the optional `out_converter`), append to the
sink, and stamp the turn's first audio delta. -/
def audioDeltaStep (outputChannels : Nat) (outConvert : List UInt8 → List UInt8)
    (s : RecvState) (raw : List UInt8) (itemId : Option String) (now : Int) :
    RecvState :=
  let tail1 := s.pcmTail ++ raw
  if tail1 = [] then { s with pcmTail := tail1 }
  else
    let frameBytesWire := 2 * outputChannels
    let n := tail1.length / frameBytesWire * frameBytesWire
    if n = 0 then { s with pcmTail := tail1 }
    else
      let pcm := tail1.take n
      let s1 := { s with pcmTail := tail1.drop n, forwarded := s.forwarded ++ pcm }
      let r := appendPcm16 s1.sink (outConvert pcm)
      let s2 := { s1 with sink := r.1 }
      match itemId with
      | none => s2
      | some iid =>
        let t := match s2.turns iid with
          | some t0 => t0
          | none => { turnId := iid }
        if t.firstAudioDeltaMs = none then
          let t1 := { t with firstAudioDeltaMs := some now }
          let s3 := { s2 with turns := setTurn s2.turns iid t1
                              writes := s2.writes ++ [(iid, Field.fad)] }
          match r.2 with
          | some epoch => { s3 with epochToTurn := (epoch, iid) :: s3.epochToTurn }
          | none => s3
        else s2

/-- One iteration of the `_play_tracker` coroutine once an epoch is
available on the play-started queue: pop the epoch, pop its
`epoch_to_turn` binding, and if the bound turn's record exists with
`first_audio_played_ms` unset, stamp it. -/
def playTrackerStep (s : RecvState) (now : Int) : RecvState :=
  match s.playStartedQ with
  | [] => s
  | epoch :: restQ =>
    let s1 : RecvState := { s with playStartedQ := restQ }
    match lookupEpoch s1.epochToTurn epoch with
    | none => s1
    | some turnId =>
      let s2 : RecvState := { s1 with epochToTurn := eraseEpoch s1.epochToTurn epoch }
      match s2.turns turnId with
      | none => s2
      | some t =>
        if t.firstAudioPlayedMs ≠ none then s2
        else
          { s2 with
            turns := setTurn s2.turns turnId { t with firstAudioPlayedMs := some now }
            writes := s2.writes ++ [(turnId, Field.played)] }

/-- One dispatch iteration of `_receiver` (plus the device-callback
thread action and the play-tracker task). -/
def recvStep (outputChannels : Nat) (outConvert : List UInt8 → List UInt8)
    (s : RecvState) : Event → RecvState
  | .errorEvent => s
  | .sessionEvent => s
  | .responseCreated respId =>
    match respId with
    | some rid => { s with activeResponseId := some rid }
    | none => s
  | .responseDone respId =>
    match respId with
    | some rid =>
      if s.activeResponseId = some rid then { s with activeResponseId := none } else s
    | none => s
  | .speechStarted now =>
    if shouldBargeInCancel s now then cancelActiveResponse s now else s
  | .speechStopped itemId now =>
    match itemId with
    | some iid =>
      { s with turns := setTurn s.turns iid { turnId := iid, eosProxyMs := some now }
               writes := s.writes ++ [(iid, Field.eos)] }
    | none => s
  | .asrCompleted => s
  | .ttsTranscriptDelta => s
  | .audioDelta raw itemId respId now =>
    match raw with
    | none => s
    | some rawBytes =>
      match respId with
      | some rid =>
        if rid ∈ s.cancelledResponseIds then s
        else audioDeltaStep outputChannels outConvert s rawBytes itemId now
      | none => audioDeltaStep outputChannels outConvert s rawBytes itemId now
  | .audioDone => s
  | .unknown => s
  | .deviceCallback want now =>
    let r := callback s.sink want now
    match r.2.2 with
    | some epoch => { s with sink := r.1, playStartedQ := s.playStartedQ ++ [epoch] }
    | none => { s with sink := r.1 }
  | .playTrackerWake now => playTrackerStep s now

/-- Processing a whole event sequence. -/
def recvRun (outputChannels : Nat) (outConvert : List UInt8 → List UInt8)
    (s : RecvState) (es : List Event) : RecvState :=
  es.foldl (recvStep outputChannels outConvert) s

/-! ### Auxiliary specification-side definitions -/

/-- Pure content of one alignment-buffer update of the
`response.audio.delta` handler: append the decoded payload to the
tail, emit the whole-frame prefix, keep the remainder. -/
def alignStep (frame : Nat) (tail raw : List UInt8) : List UInt8 × List UInt8 :=
  let t := tail ++ raw
  let n := t.length / frame * frame
  (t.take n, t.drop n)

/-- Does an event stamp `eos_proxy_ms` for turn `id`
(`input_audio_buffer.speech_stopped` with `item_id == id`)? -/
def isStopFor (id : String) : Event → Bool
  | .speechStopped (some iid) _ => iid = id
  | _ => false

/-- Is an event an audio delta addressed to turn `id`? -/
def isDeltaFor (id : String) : Event → Bool
  | .audioDelta _ (some iid) _ _ => iid = id
  | _ => false

/-- Number of ghost-logged writes of field `fld` of turn `id`. -/
def countWrites (ws : List (String × Field)) (id : String) (fld : Field) : Nat :=
  ws.count (id, fld)

/-- Indicator: the ledger record of turn `id` currently exists with
`first_audio_delta_ms` set. -/
def fadInd (s : RecvState) (id : String) : Nat :=
  match s.turns id with
  | some t => if t.firstAudioDeltaMs = none then 0 else 1
  | none => 0

/-- Number of `epoch_to_turn` bindings currently pointing at turn
`id`.  Such a binding is created only when a turn's first audio delta
is stamped, and one is consumed by every `first_audio_played_ms`
write, so this drives the at-most-once argument for the third ledger
field. -/
def epochBindings (s : RecvState) (id : String) : Nat :=
  (s.epochToTurn.filter (fun p => p.2 == id)).length

/-- Well-ordered traces for turn `id`: no `speech_stopped` for `id`
arrives after an audio delta of `id` (the normal protocol order, where
end-of-speech precedes the reply audio). -/
def noStopAfterDelta (id : String) : List Event → Bool
  | [] => true
  | e :: rest =>
    if isDeltaFor id e then
      rest.all (fun e2 => !(isStopFor id e2)) && noStopAfterDelta id rest
    else noStopAfterDelta id rest

end Realtime

/-! ## Theorems -/

/-- C2: the spec requires both capture-source variants to expose the
asynchronous pull method `get_chunk(timeout)` that `_sender` calls
with a 200 ms timeout, but `AudioInput` (the microphone variant)
defines no such method — only `ProcessLoopbackInput` does — so the
microphone path fails at the sender's first pull. -/
theorem audioInput_lacks_get_chunk :
    AudioIn.senderPullMethodName ∉ AudioIn.audioInputMethodNames ∧
    AudioIn.senderPullMethodName ∈ AudioIn.processLoopbackInputMethodNames := by
  decide

/-- C3: a session ended by the rotation timer closes the websocket
with the normal-closure code 1000, but `_receiver` raises
`ConnectionError` when the closed stream ends, so
`QwenRealtimeClient.run` takes its exception branch and the next
backoff is the doubled 1000 ms, not the 500 ms clean-session
baseline. -/
theorem rotation_backoff_doubles :
    Supervisor.rotationCloseCode = 1000 ∧
    Supervisor.receiverRaisesOnStreamEnd = true ∧
    Supervisor.runBackoffStep Supervisor.initialBackoffMs
      Supervisor.receiverRaisesOnStreamEnd = 1000 ∧
    Supervisor.runBackoffStep Supervisor.initialBackoffMs
      Supervisor.receiverRaisesOnStreamEnd ≠ Supervisor.initialBackoffMs := by
  decide

/-- C8 counterexample: at `sample_rate = 44100`, `chunk_ms = 35` the
code's blocksize `int(44100 * 35 / 1000) = 1543` differs from the
claimed `round(44100 * 35 / 1000) = 1544`. -/
theorem blocksize_not_round_at_44100_35 :
    AudioIn.blocksize 44100 35 ≠ AudioIn.specRoundDiv (44100 * 35) 1000 := by
  decide

/-- C8 amended: the microphone stream is opened with a blocksize of
`⌊sample_rate * chunk_ms / 1000⌋` frames (Python `int()` truncation);
this agrees with `round(...)` exactly when the remainder is below one
half, or equals one half with an even quotient (ties-to-even). -/
theorem blocksize_is_floor_div (rate ms : Nat) :
    AudioIn.specRoundDiv (rate * ms) 1000 =
      AudioIn.blocksize rate ms +
        (if 2 * (rate * ms % 1000) < 1000 ∨
            (2 * (rate * ms % 1000) = 1000 ∧ rate * ms / 1000 % 2 = 0)
         then 0 else 1) := by
  unfold AudioIn.specRoundDiv AudioIn.blocksize
  split_ifs <;> omega

namespace AudioOut

theorem sub_div_mul_eq_mod (a f : Nat) : a - a / f * f = a % f := by
  have h := Nat.div_add_mod a f
  have h2 : a / f * f ≤ a := Nat.div_mul_le_self a f
  calc a - a / f * f = f * (a / f) + a % f - a / f * f := by rw [h]
    _ = a % f := by rw [Nat.mul_comm]; omega

theorem appendPcm16_channels (s : Sink) (pcm : List UInt8) :
    (appendPcm16 s pcm).1.channels = s.channels := by
  unfold appendPcm16
  dsimp only
  split
  · rfl
  · split <;> rfl

theorem appendPcm16_buf (s : Sink) (pcm : List UInt8) (hp : pcm ≠ []) :
    (appendPcm16 s pcm).1.buf =
      s.buf ++ (s.tail ++ pcm).take
        ((s.tail ++ pcm).length / (2 * s.channels) * (2 * s.channels)) := by
  unfold appendPcm16
  dsimp only
  rw [if_neg hp]
  split <;> rfl

theorem appendPcm16_tail (s : Sink) (pcm : List UInt8) (hp : pcm ≠ []) :
    (appendPcm16 s pcm).1.tail =
      (s.tail ++ pcm).drop
        ((s.tail ++ pcm).length / (2 * s.channels) * (2 * s.channels)) := by
  unfold appendPcm16
  dsimp only
  rw [if_neg hp]
  split <;> rfl

theorem appendPcm16_awaiting_of_some (s : Sink) (pcm : List UInt8) (e : Nat)
    (h : s.awaitingPlayEpoch = some e) :
    (appendPcm16 s pcm).1.awaitingPlayEpoch = some e := by
  unfold appendPcm16
  dsimp only
  split
  · exact h
  · split
    · rename_i hcond
      rw [h] at hcond
      simp at hcond
    · exact h

theorem appendPcm16_preserves_inv (s : Sink) (pcm : List UInt8)
    (hch : 0 < s.channels) (hinv : SinkInv s) :
    SinkInv (appendPcm16 s pcm).1 := by
  by_cases hp : pcm = []
  · subst hp
    unfold appendPcm16
    simpa using hinv
  · have hf : 0 < 2 * s.channels := by omega
    have hle : (s.tail ++ pcm).length / (2 * s.channels) * (2 * s.channels) ≤
        (s.tail ++ pcm).length := Nat.div_mul_le_self _ _
    unfold SinkInv
    rw [appendPcm16_channels, appendPcm16_buf s pcm hp, appendPcm16_tail s pcm hp]
    constructor
    · rw [List.length_append, List.length_take, Nat.min_eq_left hle,
        Nat.add_mod, hinv.1, Nat.mul_mod_left]
      simp
    · rw [List.length_drop, sub_div_mul_eq_mod]
      exact Nat.mod_lt _ hf

theorem callback_proj (s : Sink) (want : Nat) (now : Int) :
    (callback s want now).1.buf =
        s.buf.drop ((if s.buf = [] then 0 else min want s.buf.length) /
          (2 * s.channels) * (2 * s.channels)) ∧
      (callback s want now).1.tail = s.tail ∧
      (callback s want now).1.channels = s.channels := by
  unfold callback
  dsimp only
  by_cases hb : s.buf = []
  · simp [hb]
  · simp only [hb, if_neg, ite_false]
    split
    · split <;> exact ⟨rfl, rfl, rfl⟩
    · exact ⟨rfl, rfl, rfl⟩

theorem callback_preserves_inv (s : Sink) (want : Nat) (now : Int)
    (hch : 0 < s.channels) (hinv : SinkInv s) :
    SinkInv (callback s want now).1 := by
  obtain ⟨hbuf, htail, hchn⟩ := callback_proj s want now
  have hf : 0 < 2 * s.channels := by omega
  have hdvd1 : 2 * s.channels ∣ s.buf.length := Nat.dvd_of_mod_eq_zero hinv.1
  have hdvd2 : 2 * s.channels ∣
      (if s.buf = [] then 0 else min want s.buf.length) /
        (2 * s.channels) * (2 * s.channels) :=
    Dvd.intro_left _ rfl
  unfold SinkInv
  constructor
  · rw [hchn, hbuf, List.length_drop]
    exact Nat.mod_eq_zero_of_dvd (Nat.dvd_sub' hdvd1 hdvd2)
  · rw [hchn, htail]
    exact hinv.2

theorem flush_preserves_inv (s : Sink) (hch : 0 < s.channels) :
    SinkInv (flush s).1 := by
  constructor
  · simp [flush]
  · simp only [flush, List.length_nil]
    omega

end AudioOut

/-- C5: every playback-sink operation — `append_pcm16`,
`append_pcm24` (when it does not raise), the device-callback byte
copy, and `flush` — preserves the buffer invariant (main buffer a
whole multiple of the frame size `2 × channels`, tail strictly shorter
than one frame), and an append never replaces a pending play epoch,
so at most one epoch is pending at a time. -/
theorem sink_ops_preserve_invariant (s : AudioOut.Sink)
    (pcm pcm24 : List UInt8) (want : Nat) (now : Int)
    (hch : 0 < s.channels) (hinv : AudioOut.SinkInv s) :
    AudioOut.SinkInv (AudioOut.appendPcm16 s pcm).1 ∧
    (∀ s2 r, AudioOut.appendPcm24 s pcm24 = .ok (s2, r) → AudioOut.SinkInv s2) ∧
    AudioOut.SinkInv (AudioOut.callback s want now).1 ∧
    AudioOut.SinkInv (AudioOut.flush s).1 ∧
    (∀ e, s.awaitingPlayEpoch = some e →
      (AudioOut.appendPcm16 s pcm).1.awaitingPlayEpoch = some e) := by
  refine ⟨AudioOut.appendPcm16_preserves_inv s pcm hch hinv, ?_,
    AudioOut.callback_preserves_inv s want now hch hinv,
    AudioOut.flush_preserves_inv s hch,
    fun e he => AudioOut.appendPcm16_awaiting_of_some s pcm e he⟩
  intro s2 r h
  unfold AudioOut.appendPcm24 at h
  split at h
  · exact absurd h (by simp)
  · rw [Except.ok.injEq] at h
    have : s2 = (AudioOut.appendPcm16 s (AudioOut.lin2lin3to2 pcm24)).1 := by
      rw [h]
    rw [this]
    exact AudioOut.appendPcm16_preserves_inv s _ hch hinv

/-- C5 witness: the invariant-preservation theorem applied to a
concrete one-channel sink with a two-byte main buffer, a one-byte
tail and a pending epoch. -/
theorem sink_ops_preserve_invariant_witness :
    AudioOut.SinkInv (AudioOut.appendPcm16 ⟨1, [0, 0], [7], 3, some 2, none⟩ [1]).1 ∧
    (∀ s2 r, AudioOut.appendPcm24 ⟨1, [0, 0], [7], 3, some 2, none⟩ [1, 2, 3] =
      .ok (s2, r) → AudioOut.SinkInv s2) ∧
    AudioOut.SinkInv (AudioOut.callback ⟨1, [0, 0], [7], 3, some 2, none⟩ 5 0).1 ∧
    AudioOut.SinkInv (AudioOut.flush ⟨1, [0, 0], [7], 3, some 2, none⟩).1 ∧
    (∀ e, (⟨1, [0, 0], [7], 3, some 2, none⟩ : AudioOut.Sink).awaitingPlayEpoch = some e →
      (AudioOut.appendPcm16 ⟨1, [0, 0], [7], 3, some 2, none⟩ [1]).1.awaitingPlayEpoch = some e) :=
  sink_ops_preserve_invariant _ [1] [1, 2, 3] 5 0 (by decide) ⟨by decide, by decide⟩

/-- C9: `append_pcm16` on the empty byte string returns `None` and
leaves the sink entirely unchanged; a non-empty payload shorter than
one frame on an empty sink returns `None` with the bytes retained in
the tail; and a play epoch is issued exactly when the payload is
non-empty, the main buffer was empty, no epoch was pending, and tail
plus payload complete at least one whole frame (so at least one frame
moves into the main buffer). -/
theorem appendPcm16_epoch_conditions (s : AudioOut.Sink) (pcm : List UInt8)
    (hch : 0 < s.channels) :
    AudioOut.appendPcm16 s [] = (s, none) ∧
    (pcm ≠ [] → pcm.length < 2 * s.channels → s.buf = [] → s.tail = [] →
      AudioOut.appendPcm16 s pcm = ({ s with tail := pcm }, none)) ∧
    ((AudioOut.appendPcm16 s pcm).2.isSome ↔
      pcm ≠ [] ∧ s.buf = [] ∧ s.awaitingPlayEpoch = none ∧
        2 * s.channels ≤ s.tail.length + pcm.length) := by
  have hf : 0 < 2 * s.channels := by omega
  refine ⟨by simp [AudioOut.appendPcm16], ?_, ?_⟩
  · intro hp hlen hbuf htail
    have hn : pcm.length / (2 * s.channels) = 0 := Nat.div_eq_of_lt hlen
    unfold AudioOut.appendPcm16
    dsimp only
    rw [if_neg hp]
    rw [if_neg]
    · congr 1
      cases s
      simp_all [AudioOut.appendPcm16]
    · simp [htail, hn, hbuf]
  · by_cases hp : pcm = []
    · subst hp
      simp [AudioOut.appendPcm16]
    · unfold AudioOut.appendPcm16
      dsimp only
      rw [if_neg hp]
      have hlen1 : (s.tail ++ pcm).length = s.tail.length + pcm.length :=
        List.length_append _ _
      constructor
      · intro hs
        split at hs
        · rename_i hcond
          obtain ⟨hbuf, hne, hawait⟩ := hcond
          refine ⟨hp, hbuf, hawait, ?_⟩
          by_contra hlt
          push_neg at hlt
          have h0 : (s.tail.length + pcm.length) / (2 * s.channels) = 0 :=
            Nat.div_eq_of_lt (by omega)
          simp [hbuf, h0] at hne
        · simp at hs
      · rintro ⟨-, hbuf, hawait, hge⟩
        rw [if_pos]
        · rfl
        · have hpos : 0 < (s.tail ++ pcm).length / (2 * s.channels) :=
            (Nat.div_pos_iff (by omega)).2 (by rw [hlen1]; omega)
          refine ⟨hbuf, ?_, hawait⟩
          simp only [hbuf, List.nil_append]
          intro hcontra
          rw [List.take_eq_nil_iff] at hcontra
          rcases hcontra with h0 | h0
          · exact absurd h0 (Nat.mul_ne_zero (by omega) (by omega))
          · rw [List.append_eq_nil] at h0
            exact hp h0.2

/-- C9 witness: the conditions evaluated on a concrete one-channel
sink holding a one-byte tail, appended with a one-byte payload. -/
theorem appendPcm16_epoch_conditions_witness :
    AudioOut.appendPcm16 ⟨1, [], [9], 0, none, none⟩ [] =
      (⟨1, [], [9], 0, none, none⟩, none) ∧
    (([1] : List UInt8) ≠ [] → ([1] : List UInt8).length < 2 * 1 →
      ([] : List UInt8) = [] → ([9] : List UInt8) = [] →
      AudioOut.appendPcm16 ⟨1, [], [9], 0, none, none⟩ [1] =
        (⟨1, [], [1], 0, none, none⟩, none)) ∧
    ((AudioOut.appendPcm16 ⟨1, [], [9], 0, none, none⟩ [1]).2.isSome ↔
      ([1] : List UInt8) ≠ [] ∧ ([] : List UInt8) = [] ∧
        (none : Option Nat) = none ∧ 2 * 1 ≤ ([9] : List UInt8).length + ([1] : List UInt8).length) :=
  appendPcm16_epoch_conditions ⟨1, [], [9], 0, none, none⟩ [1] (by decide)

/-- C7: for equal channel counts in {1, 2} and equal sample rates,
`PcmRateConverter.convert` is the identity: the equal-rate case
short-circuits to the channel-converted input, which for equal channel
counts is the input itself, and the converter state is untouched.
The theorem quantifies over the abstracted resampling backend, which
this path never reaches. -/
theorem convert_identity {σ : Type}
    (ratecv : List UInt8 → Nat → Nat → Nat → Nat → Option σ → List UInt8 × Option σ)
    (c : RateConvert.PcmRateConverter σ) (data : List UInt8)
    (hch : c.inChannels = c.outChannels)
    (h12 : c.inChannels = 1 ∨ c.inChannels = 2)
    (hrate : c.inSampleRateHz = c.outSampleRateHz) :
    RateConvert.convert ratecv c data = .ok (data, c) := by
  unfold RateConvert.convert RateConvert.channelConvert
  rcases h12 with h | h <;> simp [h, ← hch, hrate]

/-- C7 witness: a concrete mono, 16 kHz → mono, 16 kHz converter
returns a two-byte input unchanged. -/
theorem convert_identity_witness :
    RateConvert.convert (σ := Unit) (fun d _ _ _ _ st => (d, st))
      ⟨2, 1, 16000, 1, 16000, none⟩ [5, 7] =
      .ok ([5, 7], ⟨2, 1, 16000, 1, 16000, none⟩) :=
  convert_identity _ _ _ rfl (Or.inl rfl) rfl

/-- C10: when `in_channels` or `out_channels` lies outside {1, 2},
`convert` raises `ValueError` exactly on non-empty input: the empty
byte string takes the early-return fast path and yields the empty
byte string without validation. -/
theorem convert_unsupported_channels {σ : Type}
    (ratecv : List UInt8 → Nat → Nat → Nat → Nat → Option σ → List UInt8 × Option σ)
    (c : RateConvert.PcmRateConverter σ) (data : List UInt8)
    (hbad : (c.inChannels ≠ 1 ∧ c.inChannels ≠ 2) ∨
      (c.outChannels ≠ 1 ∧ c.outChannels ≠ 2)) :
    RateConvert.convert ratecv c [] = .ok ([], c) ∧
    (data ≠ [] → ∃ msg, RateConvert.convert ratecv c data = .error msg) := by
  constructor
  · unfold RateConvert.convert
    simp
  · intro hd
    unfold RateConvert.convert
    rw [if_neg hd]
    by_cases hin : c.inChannels ≠ 1 ∧ c.inChannels ≠ 2
    · exact ⟨_, by rw [if_pos hin]⟩
    · have hout : c.outChannels ≠ 1 ∧ c.outChannels ≠ 2 := by tauto
      exact ⟨_, by rw [if_neg hin, if_pos hout]⟩

/-- C10 witness: a converter with three input and output channels
returns the empty string on empty input and errors on a one-byte
input. -/
theorem convert_unsupported_channels_witness :
    RateConvert.convert (σ := Unit) (fun d _ _ _ _ st => (d, st))
      ⟨2, 3, 16000, 3, 16000, none⟩ [] =
      .ok ([], ⟨2, 3, 16000, 3, 16000, none⟩) ∧
    (([1] : List UInt8) ≠ [] →
      ∃ msg, RateConvert.convert (σ := Unit) (fun d _ _ _ _ st => (d, st))
        ⟨2, 3, 16000, 3, 16000, none⟩ [1] = .error msg) :=
  convert_unsupported_channels _ _ _ (Or.inl (by decide))

namespace Realtime

theorem recvStep_responseCreated_active (oc : Nat)
    (f : List UInt8 → List UInt8) (s : RecvState) (rid : String) :
    (recvStep oc f s (.responseCreated (some rid))).activeResponseId = some rid :=
  rfl

theorem recvStep_responseDone_active (oc : Nat)
    (f : List UInt8 → List UInt8) (s : RecvState) (rid : String) :
    (recvStep oc f s (.responseDone (some rid))).activeResponseId =
      if s.activeResponseId = some rid then none else s.activeResponseId := by
  dsimp only [recvStep]
  by_cases h : s.activeResponseId = some rid <;> simp [h]

end Realtime

/-- C1: on a `speech_started` event received while the agent is
speaking (sink audible within 400 ms or pending bytes > 0) and at
least 400 ms after the previous cancel attempt, the receiver adds the
active response ID — the one set by the most recent not-yet-done
`response.created` event — to the cancelled set, sends exactly one
outbound `response.cancel`, clears the active response, and a second
`speech_started` within the 400 ms debounce window sends nothing
more. -/
theorem speech_started_cancels_active_response (oc : Nat)
    (f : List UInt8 → List UInt8) (s : Realtime.RecvState) (r : String)
    (now now2 : Int)
    (hact : s.activeResponseId = some r)
    (hspeak : AudioOut.isAudible s.sink 400 now = true ∨
      0 < AudioOut.pendingBytes s.sink)
    (hdeb : 400 ≤ now - s.lastCancelMs)
    (hdeb2 : now2 - now < 400) :
    (Realtime.recvStep oc f s (.speechStarted now)).cancelledResponseIds =
        r :: s.cancelledResponseIds ∧
      (Realtime.recvStep oc f s (.speechStarted now)).sent =
        s.sent ++ [Realtime.OutEvent.responseCancel] ∧
      (Realtime.recvStep oc f s (.speechStarted now)).activeResponseId = none ∧
      (Realtime.recvStep oc f
          (Realtime.recvStep oc f s (.speechStarted now))
          (.speechStarted now2)).sent =
        (Realtime.recvStep oc f s (.speechStarted now)).sent := by
  have hguard : Realtime.shouldBargeInCancel s now = true := by
    unfold Realtime.shouldBargeInCancel
    rcases hspeak with h | h
    · simp [h]
    · simp [h]
  have hstep : Realtime.recvStep oc f s (.speechStarted now) =
      Realtime.cancelActiveResponse s now := by
    dsimp only [Realtime.recvStep]
    rw [if_pos hguard]
  have hcancel : Realtime.cancelActiveResponse s now =
      { s with lastCancelMs := now
               cancelledResponseIds := r :: s.cancelledResponseIds
               sent := s.sent ++ [Realtime.OutEvent.responseCancel]
               activeResponseId := none
               sink := (AudioOut.flush s.sink).1
               epochToTurn := [] } := by
    unfold Realtime.cancelActiveResponse
    rw [if_neg (by omega)]
    rw [hact]
  rw [hstep, hcancel]
  refine ⟨rfl, rfl, rfl, ?_⟩
  dsimp only [Realtime.recvStep]
  split
  · unfold Realtime.cancelActiveResponse
    rw [if_pos (by dsimp only; omega)]
  · rfl

/-- C1 witness: a concrete state with active response `R1`, one
pending byte in the sink tail, last cancel at 0 ms, a `speech_started`
at 1000 ms and a second one at 1200 ms. -/
theorem speech_started_cancels_active_response_witness :
    (Realtime.recvStep 1 id
          ⟨fun _ => none, [], some "R1", [], 0, [], ⟨1, [], [1], 0, none, none⟩, [], [], [], []⟩
          (.speechStarted 1000)).cancelledResponseIds = "R1" :: [] ∧
      (Realtime.recvStep 1 id
          ⟨fun _ => none, [], some "R1", [], 0, [], ⟨1, [], [1], 0, none, none⟩, [], [], [], []⟩
          (.speechStarted 1000)).sent = [] ++ [Realtime.OutEvent.responseCancel] ∧
      (Realtime.recvStep 1 id
          ⟨fun _ => none, [], some "R1", [], 0, [], ⟨1, [], [1], 0, none, none⟩, [], [], [], []⟩
          (.speechStarted 1000)).activeResponseId = none ∧
      (Realtime.recvStep 1 id
          (Realtime.recvStep 1 id
            ⟨fun _ => none, [], some "R1", [], 0, [], ⟨1, [], [1], 0, none, none⟩, [], [], [], []⟩
            (.speechStarted 1000))
          (.speechStarted 1200)).sent =
        (Realtime.recvStep 1 id
          ⟨fun _ => none, [], some "R1", [], 0, [], ⟨1, [], [1], 0, none, none⟩, [], [], [], []⟩
          (.speechStarted 1000)).sent :=
  speech_started_cancels_active_response 1 id _ "R1" 1000 1200 rfl
    (Or.inr (by decide)) (by decide) (by decide)

namespace Realtime

theorem alignStep_append (frame : Nat) (tail raw : List UInt8) :
    (alignStep frame tail raw).1 ++ (alignStep frame tail raw).2 = tail ++ raw :=
  List.take_append_drop _ _

theorem alignStep_fst_dvd (frame : Nat) (tail raw : List UInt8) :
    frame ∣ (alignStep frame tail raw).1.length := by
  unfold alignStep
  dsimp only
  rw [List.length_take,
    Nat.min_eq_left (Nat.div_mul_le_self (tail ++ raw).length frame)]
  exact dvd_mul_left frame _

theorem alignStep_snd_lt (frame : Nat) (hf : 0 < frame) (tail raw : List UInt8) :
    (alignStep frame tail raw).2.length < frame := by
  unfold alignStep
  dsimp only
  rw [List.length_drop, AudioOut.sub_div_mul_eq_mod]
  exact Nat.mod_lt _ hf

theorem audioDeltaStep_align (oc : Nat) (f : List UInt8 → List UInt8)
    (s : RecvState) (raw : List UInt8) (itemId : Option String) (now : Int) :
    (audioDeltaStep oc f s raw itemId now).pcmTail =
        (alignStep (2 * oc) s.pcmTail raw).2 ∧
      (audioDeltaStep oc f s raw itemId now).forwarded =
        s.forwarded ++ (alignStep (2 * oc) s.pcmTail raw).1 ∧
      (audioDeltaStep oc f s raw itemId now).cancelledResponseIds =
        s.cancelledResponseIds := by
  unfold audioDeltaStep alignStep
  dsimp only
  split
  · rename_i h
    simp [h]
  · split
    · rename_i h hn
      refine ⟨?_, ?_, rfl⟩
      · rw [hn, List.drop_zero]
      · rw [hn, List.take_zero, List.append_nil]
    · split
      · exact ⟨rfl, rfl, rfl⟩
      · split
        · split
          · exact ⟨rfl, rfl, rfl⟩
          · exact ⟨rfl, rfl, rfl⟩
        · exact ⟨rfl, rfl, rfl⟩

theorem recvRun_deltas_align (oc : Nat) (f : List UInt8 → List UInt8)
    (rid item : String) (now : Int) (ps : List (List UInt8)) :
    ∀ s : RecvState, rid ∉ s.cancelledResponseIds →
      (recvRun oc f s
            (ps.map (fun p => Event.audioDelta (some p) (some item) (some rid) now))).forwarded ++
          (recvRun oc f s
            (ps.map (fun p => Event.audioDelta (some p) (some item) (some rid) now))).pcmTail =
        s.forwarded ++ s.pcmTail ++ ps.flatten ∧
      (2 * oc ∣ s.forwarded.length → s.pcmTail.length < 2 * oc → 0 < oc →
        2 * oc ∣ (recvRun oc f s
            (ps.map (fun p => Event.audioDelta (some p) (some item) (some rid) now))).forwarded.length ∧
          (recvRun oc f s
            (ps.map (fun p => Event.audioDelta (some p) (some item) (some rid) now))).pcmTail.length < 2 * oc) := by
  induction ps with
  | nil =>
    intro s _
    refine ⟨by simp [recvRun], fun h1 h2 _ => ⟨h1, h2⟩⟩
  | cons p ps ih =>
    intro s hmem
    have hstep : recvStep oc f s (Event.audioDelta (some p) (some item) (some rid) now) =
        audioDeltaStep oc f s p (some item) now := by
      dsimp only [recvStep]
      rw [if_neg hmem]
    have hrun : recvRun oc f s
        (((p :: ps)).map (fun q => Event.audioDelta (some q) (some item) (some rid) now)) =
        recvRun oc f (audioDeltaStep oc f s p (some item) now)
          (ps.map (fun q => Event.audioDelta (some q) (some item) (some rid) now)) := by
      simp only [List.map_cons, recvRun, List.foldl_cons]
      rw [← hstep]
    obtain ⟨htl, hfw, hcn⟩ := audioDeltaStep_align oc f s p (some item) now
    have hmem2 : rid ∉ (audioDeltaStep oc f s p (some item) now).cancelledResponseIds := by
      rw [hcn]; exact hmem
    obtain ⟨ihconcat, ihinv⟩ := ih (audioDeltaStep oc f s p (some item) now) hmem2
    rw [hrun]
    constructor
    · rw [ihconcat, hfw, htl, List.append_assoc s.forwarded,
        alignStep_append, List.flatten_cons]
      simp [List.append_assoc]
    · intro hd hl hoc
      refine ihinv ?_ ?_ hoc
      · rw [hfw, List.length_append]
        exact Nat.dvd_add hd (alignStep_fst_dvd _ _ _)
      · rw [htl]
        exact alignStep_snd_lt _ (by omega) _ _

end Realtime

/-- C6: over any sequence of `response.audio.delta` events of a
non-cancelled response, the bytes forwarded out of the inbound
alignment buffer toward conversion and playback are exactly the
whole-wire-frame prefix of the concatenation of the decoded payloads,
in order; the sub-frame remainder stays in the buffer so no decoded
byte is dropped, and a single decoded fragment shorter than one wire
frame forwards zero bytes. -/
theorem audio_delta_alignment (oc c : Nat) (f : List UInt8 → List UInt8)
    (rid item : String) (now : Int) (ps : List (List UInt8)) (p : List UInt8)
    (hoc : 0 < oc) (hp : p.length < 2 * oc) :
    (Realtime.recvRun oc f (Realtime.initState c)
          (ps.map (fun q => Realtime.Event.audioDelta (some q) (some item) (some rid) now))).forwarded =
        ps.flatten.take (ps.flatten.length / (2 * oc) * (2 * oc)) ∧
      (Realtime.recvRun oc f (Realtime.initState c)
            (ps.map (fun q => Realtime.Event.audioDelta (some q) (some item) (some rid) now))).forwarded ++
          (Realtime.recvRun oc f (Realtime.initState c)
            (ps.map (fun q => Realtime.Event.audioDelta (some q) (some item) (some rid) now))).pcmTail =
        ps.flatten ∧
      (Realtime.recvStep oc f (Realtime.initState c)
          (Realtime.Event.audioDelta (some p) (some item) (some rid) now)).forwarded = [] := by
  obtain ⟨hconcat, hinv⟩ :=
    Realtime.recvRun_deltas_align oc f rid item now ps (Realtime.initState c)
      (by simp [Realtime.initState])
  rw [show (Realtime.initState c).forwarded = [] from rfl,
    show (Realtime.initState c).pcmTail = [] from rfl] at hconcat
  simp only [List.nil_append] at hconcat
  obtain ⟨hd, hl⟩ := hinv (by simp [Realtime.initState]) (by simp [Realtime.initState]; omega) hoc
  have hf : 0 < 2 * oc := by omega
  obtain ⟨k, hk⟩ := hd
  have hlen : ps.flatten.length =
      (Realtime.recvRun oc f (Realtime.initState c)
          (ps.map (fun q => Realtime.Event.audioDelta (some q) (some item) (some rid) now))).forwarded.length +
        (Realtime.recvRun oc f (Realtime.initState c)
          (ps.map (fun q => Realtime.Event.audioDelta (some q) (some item) (some rid) now))).pcmTail.length := by
    rw [← hconcat, List.length_append]
  have hP : ps.flatten.length / (2 * oc) * (2 * oc) =
      (Realtime.recvRun oc f (Realtime.initState c)
          (ps.map (fun q => Realtime.Event.audioDelta (some q) (some item) (some rid) now))).forwarded.length := by
    rw [hlen, hk, Nat.mul_add_div hf, Nat.div_eq_of_lt hl]
    ring
  refine ⟨?_, hconcat, ?_⟩
  · rw [hP, ← hconcat, List.take_left]
  · have hstep : Realtime.recvStep oc f (Realtime.initState c)
        (Realtime.Event.audioDelta (some p) (some item) (some rid) now) =
        Realtime.audioDeltaStep oc f (Realtime.initState c) p (some item) now := by
      dsimp only [Realtime.recvStep]
      rw [if_neg (by simp [Realtime.initState])]
    obtain ⟨-, hfw, -⟩ :=
      Realtime.audioDeltaStep_align oc f (Realtime.initState c) p (some item) now
    rw [hstep, hfw]
    have hn : ([] ++ p).length / (2 * oc) = 0 := by
      simp only [List.nil_append]
      exact Nat.div_eq_of_lt hp
    simp [Realtime.initState, Realtime.alignStep, hn]
    left
    left
    simpa using hn

/-- C6 witness: with one output channel, payloads `[[1], [2, 3]]`
forward the two-byte whole-frame prefix `[1, 2]`, keep `[3]`, and a
single one-byte fragment forwards nothing. -/
theorem audio_delta_alignment_witness :
    (Realtime.recvRun 1 id (Realtime.initState 1)
          ([[1], [2, 3]].map (fun q => Realtime.Event.audioDelta (some q) (some "T") (some "R") 0))).forwarded =
        ([[1], [2, 3]] : List (List UInt8)).flatten.take
          (([[1], [2, 3]] : List (List UInt8)).flatten.length / (2 * 1) * (2 * 1)) ∧
      (Realtime.recvRun 1 id (Realtime.initState 1)
            ([[1], [2, 3]].map (fun q => Realtime.Event.audioDelta (some q) (some "T") (some "R") 0))).forwarded ++
          (Realtime.recvRun 1 id (Realtime.initState 1)
            ([[1], [2, 3]].map (fun q => Realtime.Event.audioDelta (some q) (some "T") (some "R") 0))).pcmTail =
        ([[1], [2, 3]] : List (List UInt8)).flatten ∧
      (Realtime.recvStep 1 id (Realtime.initState 1)
          (Realtime.Event.audioDelta (some [9]) (some "T") (some "R") 0)).forwarded = [] :=
  audio_delta_alignment 1 1 id "R" "T" 0 [[1], [2, 3]] [9] (by decide) (by decide)

namespace Realtime

theorem recvRun_cons (oc : Nat) (f : List UInt8 → List UInt8)
    (s : RecvState) (e : Event) (es : List Event) :
    recvRun oc f s (e :: es) = recvRun oc f (recvStep oc f s e) es :=
  rfl

theorem fadInd_le_one (s : RecvState) (id : String) : fadInd s id ≤ 1 := by
  unfold fadInd
  split
  · split <;> omega
  · omega

theorem fadInd_eq_of_turns_eq (s s2 : RecvState) (id : String)
    (h : s2.turns = s.turns) : fadInd s2 id = fadInd s id := by
  unfold fadInd
  rw [h]

theorem countWrites_append_one (ws : List (String × Field)) (p : String × Field)
    (id : String) (fld : Field) :
    countWrites (ws ++ [p]) id fld =
      countWrites ws id fld + (if p = (id, fld) then 1 else 0) := by
  unfold countWrites
  rw [List.count_append]
  by_cases h : p = (id, fld) <;> simp [h, List.count_singleton]

theorem cancelActiveResponse_turns_writes (s : RecvState) (now : Int) :
    (cancelActiveResponse s now).turns = s.turns ∧
      (cancelActiveResponse s now).writes = s.writes := by
  unfold cancelActiveResponse
  split
  · exact ⟨rfl, rfl⟩
  · dsimp only
    split <;> exact ⟨rfl, rfl⟩

theorem audioDeltaStep_turns_writes (oc : Nat) (f : List UInt8 → List UInt8)
    (s : RecvState) (raw : List UInt8) (itemId : Option String) (now : Int) :
    ((audioDeltaStep oc f s raw itemId now).turns = s.turns ∧
      (audioDeltaStep oc f s raw itemId now).writes = s.writes) ∨
    (∃ iid,
      itemId = some iid ∧
      (match s.turns iid with
        | some t0 => t0
        | none => { turnId := iid : TurnTtfa }).firstAudioDeltaMs = none ∧
      (audioDeltaStep oc f s raw itemId now).turns =
        setTurn s.turns iid
          { (match s.turns iid with
              | some t0 => t0
              | none => { turnId := iid : TurnTtfa }) with
            firstAudioDeltaMs := some now } ∧
      (audioDeltaStep oc f s raw itemId now).writes =
        s.writes ++ [(iid, Field.fad)]) := by
  unfold audioDeltaStep
  dsimp only
  split
  · exact Or.inl ⟨rfl, rfl⟩
  · split
    · exact Or.inl ⟨rfl, rfl⟩
    · split
      · exact Or.inl ⟨rfl, rfl⟩
      · rename_i iid
        split
        · rename_i hfadnone
          split
          · exact Or.inr ⟨iid, rfl, hfadnone, rfl, rfl⟩
          · exact Or.inr ⟨iid, rfl, hfadnone, rfl, rfl⟩
        · exact Or.inl ⟨rfl, rfl⟩

theorem recvStep_turns_writes (oc : Nat) (f : List UInt8 → List UInt8)
    (s : RecvState) (e : Event) :
    ((recvStep oc f s e).turns = s.turns ∧ (recvStep oc f s e).writes = s.writes ∧
      (∀ id2, isStopFor id2 e = false)) ∨
    (∃ iid now2, e = Event.speechStopped (some iid) now2 ∧
      (recvStep oc f s e).turns =
        setTurn s.turns iid { turnId := iid, eosProxyMs := some now2 } ∧
      (recvStep oc f s e).writes = s.writes ++ [(iid, Field.eos)]) ∨
    (∃ raw iid respId now2, e = Event.audioDelta (some raw) (some iid) respId now2 ∧
      (match s.turns iid with
        | some t0 => t0
        | none => { turnId := iid : TurnTtfa }).firstAudioDeltaMs = none ∧
      (recvStep oc f s e).turns =
        setTurn s.turns iid
          { (match s.turns iid with
              | some t0 => t0
              | none => { turnId := iid : TurnTtfa }) with
            firstAudioDeltaMs := some now2 } ∧
      (recvStep oc f s e).writes = s.writes ++ [(iid, Field.fad)]) ∨
    (∃ tid t now2, e = Event.playTrackerWake now2 ∧ s.turns tid = some t ∧
      (recvStep oc f s e).turns =
        setTurn s.turns tid { t with firstAudioPlayedMs := some now2 } ∧
      (recvStep oc f s e).writes = s.writes ++ [(tid, Field.played)]) := by
  cases e with
  | errorEvent => exact Or.inl ⟨rfl, rfl, fun id2 => rfl⟩
  | sessionEvent => exact Or.inl ⟨rfl, rfl, fun id2 => rfl⟩
  | responseCreated respId =>
    cases respId <;> exact Or.inl ⟨rfl, rfl, fun id2 => rfl⟩
  | responseDone respId =>
    cases respId with
    | none => exact Or.inl ⟨rfl, rfl, fun id2 => rfl⟩
    | some rid =>
      dsimp only [recvStep]
      split <;> exact Or.inl ⟨rfl, rfl, fun id2 => rfl⟩
  | speechStarted now =>
    dsimp only [recvStep]
    split
    · obtain ⟨ht, hw⟩ := cancelActiveResponse_turns_writes s now
      exact Or.inl ⟨ht, hw, fun id2 => rfl⟩
    · exact Or.inl ⟨rfl, rfl, fun id2 => rfl⟩
  | speechStopped itemId now =>
    cases itemId with
    | none => exact Or.inl ⟨rfl, rfl, fun id2 => rfl⟩
    | some iid => exact Or.inr (Or.inl ⟨iid, now, rfl, rfl, rfl⟩)
  | asrCompleted => exact Or.inl ⟨rfl, rfl, fun id2 => rfl⟩
  | ttsTranscriptDelta => exact Or.inl ⟨rfl, rfl, fun id2 => rfl⟩
  | audioDelta raw itemId respId now =>
    cases raw with
    | none => exact Or.inl ⟨rfl, rfl, fun id2 => rfl⟩
    | some rawb =>
      have hdelta : ∀ s2 : RecvState,
          (audioDeltaStep oc f s2 rawb itemId now).turns = s2.turns ∧
            (audioDeltaStep oc f s2 rawb itemId now).writes = s2.writes ∨
          (∃ iid, itemId = some iid ∧
            (match s2.turns iid with
              | some t0 => t0
              | none => { turnId := iid : TurnTtfa }).firstAudioDeltaMs = none ∧
            (audioDeltaStep oc f s2 rawb itemId now).turns =
              setTurn s2.turns iid
                { (match s2.turns iid with
                    | some t0 => t0
                    | none => { turnId := iid : TurnTtfa }) with
                  firstAudioDeltaMs := some now } ∧
            (audioDeltaStep oc f s2 rawb itemId now).writes =
              s2.writes ++ [(iid, Field.fad)]) :=
        fun s2 => audioDeltaStep_turns_writes oc f s2 rawb itemId now
      cases respId with
      | some rid =>
        dsimp only [recvStep]
        split
        · exact Or.inl ⟨rfl, rfl, fun id2 => rfl⟩
        · rcases hdelta s with ⟨ht, hw⟩ | ⟨iid, hitem, hfad, ht, hw⟩
          · exact Or.inl ⟨ht, hw, fun id2 => rfl⟩
          · subst hitem
            exact Or.inr (Or.inr (Or.inl ⟨rawb, iid, some rid, now, rfl, hfad, ht, hw⟩))
      | none =>
        rcases hdelta s with ⟨ht, hw⟩ | ⟨iid, hitem, hfad, ht, hw⟩
        · exact Or.inl ⟨ht, hw, fun id2 => rfl⟩
        · subst hitem
          exact Or.inr (Or.inr (Or.inl ⟨rawb, iid, none, now, rfl, hfad, ht, hw⟩))
  | audioDone => exact Or.inl ⟨rfl, rfl, fun id2 => rfl⟩
  | unknown => exact Or.inl ⟨rfl, rfl, fun id2 => rfl⟩
  | deviceCallback want now =>
    dsimp only [recvStep]
    split <;> exact Or.inl ⟨rfl, rfl, fun id2 => rfl⟩
  | playTrackerWake now =>
    dsimp only [recvStep]
    unfold playTrackerStep
    split
    · exact Or.inl ⟨rfl, rfl, fun id2 => rfl⟩
    · dsimp only
      split
      · exact Or.inl ⟨rfl, rfl, fun id2 => rfl⟩
      · rename_i turnId hlook
        split
        · exact Or.inl ⟨rfl, rfl, fun id2 => rfl⟩
        · rename_i t hturn
          split
          · exact Or.inl ⟨rfl, rfl, fun id2 => rfl⟩
          · exact Or.inr (Or.inr (Or.inr ⟨turnId, t, now, rfl, hturn, rfl, rfl⟩))

theorem recvStep_count_eos (oc : Nat) (f : List UInt8 → List UInt8)
    (s : RecvState) (e : Event) (id : String) :
    countWrites (recvStep oc f s e).writes id Field.eos =
      countWrites s.writes id Field.eos + (if isStopFor id e then 1 else 0) := by
  rcases recvStep_turns_writes oc f s e with ⟨-, hw, hns⟩ |
      ⟨iid, now2, he, -, hw⟩ | ⟨raw, iid, respId, now2, he, -, -, hw⟩ |
      ⟨tid, t, now2, he, -, -, hw⟩
  · rw [hw, hns id]
    simp
  · subst he
    rw [hw, countWrites_append_one]
    by_cases h : iid = id
    · subst h
      simp [isStopFor]
    · simp [isStopFor, h, Prod.ext_iff]
  · subst he
    rw [hw, countWrites_append_one]
    simp [isStopFor]
  · subst he
    rw [hw, countWrites_append_one]
    simp [isStopFor]

theorem recvStep_count_fad_of_not_delta (oc : Nat) (f : List UInt8 → List UInt8)
    (s : RecvState) (e : Event) (id : String)
    (hnd : isDeltaFor id e = false) :
    countWrites (recvStep oc f s e).writes id Field.fad =
      countWrites s.writes id Field.fad := by
  rcases recvStep_turns_writes oc f s e with ⟨-, hw, -⟩ |
      ⟨iid, now2, he, -, hw⟩ | ⟨raw, iid, respId, now2, he, -, -, hw⟩ |
      ⟨tid, t, now2, he, -, -, hw⟩
  · rw [hw]
  · rw [hw, countWrites_append_one]
    simp
  · subst he
    have hne : iid ≠ id := by
      simpa [isDeltaFor] using hnd
    rw [hw, countWrites_append_one]
    simp [Prod.ext_iff, hne]
  · rw [hw, countWrites_append_one]
    simp

theorem recvStep_fad_bound (oc : Nat) (f : List UInt8 → List UInt8)
    (s : RecvState) (e : Event) (id : String)
    (hns : isStopFor id e = false) :
    countWrites (recvStep oc f s e).writes id Field.fad + fadInd s id ≤
      countWrites s.writes id Field.fad + fadInd (recvStep oc f s e) id := by
  rcases recvStep_turns_writes oc f s e with ⟨ht, hw, -⟩ |
      ⟨iid, now2, he, ht, hw⟩ | ⟨raw, iid, respId, now2, he, hfad, ht, hw⟩ |
      ⟨tid, t, now2, he, hst, ht, hw⟩
  · rw [hw, fadInd_eq_of_turns_eq _ _ _ ht]
  · subst he
    have hne : iid ≠ id := by
      simpa [isStopFor] using hns
    rw [hw, countWrites_append_one]
    have hind : fadInd (recvStep oc f s (Event.speechStopped (some iid) now2)) id =
        fadInd s id := by
      unfold fadInd
      rw [ht]
      unfold setTurn
      rw [if_neg (fun h => hne h.symm)]
    rw [hind]
    simp [Prod.ext_iff, hne]
  · subst he
    rw [hw, countWrites_append_one]
    by_cases hiid : iid = id
    · subst hiid
      have h0 : fadInd s iid = 0 := by
        unfold fadInd
        revert hfad
        cases hsl : s.turns iid with
        | some t0 =>
          intro hfad
          simp at hfad
          simp [hfad]
        | none => intro hfad; simp
      have h1 : fadInd
          (recvStep oc f s (Event.audioDelta (some raw) (some iid) respId now2)) iid = 1 := by
        unfold fadInd
        rw [ht]
        unfold setTurn
        rw [if_pos rfl]
        simp
      rw [h0, h1]
      simp
    · have hind : fadInd
          (recvStep oc f s (Event.audioDelta (some raw) (some iid) respId now2)) id =
          fadInd s id := by
        unfold fadInd
        rw [ht]
        unfold setTurn
        rw [if_neg (fun h => hiid h.symm)]
      rw [hind]
      simp [Prod.ext_iff, hiid]
  · subst he
    rw [hw, countWrites_append_one]
    have hind : fadInd (recvStep oc f s (Event.playTrackerWake now2)) id =
        fadInd s id := by
      unfold fadInd
      rw [ht]
      unfold setTurn
      by_cases hid : id = tid
      · subst hid
        rw [if_pos rfl, hst]
      · rw [if_neg hid]
    rw [hind]
    simp [Prod.ext_iff]

theorem recvRun_count_eos (oc : Nat) (f : List UInt8 → List UInt8)
    (id : String) : ∀ (es : List Event) (s : RecvState),
    countWrites (recvRun oc f s es).writes id Field.eos =
      countWrites s.writes id Field.eos + (es.filter (isStopFor id)).length := by
  intro es
  induction es with
  | nil => intro s; simp [recvRun]
  | cons e rest ih =>
    intro s
    rw [recvRun_cons, ih, recvStep_count_eos]
    by_cases h : isStopFor id e
    · rw [List.filter_cons_of_pos h]
      simp only [List.length_cons, if_pos h]
      omega
    · rw [List.filter_cons_of_neg (by simp [h])]
      simp only [if_neg h]
      omega

theorem recvRun_fad_bound (oc : Nat) (f : List UInt8 → List UInt8)
    (id : String) : ∀ (es : List Event) (s : RecvState),
    (∀ e ∈ es, isStopFor id e = false) →
    countWrites (recvRun oc f s es).writes id Field.fad + fadInd s id ≤
      countWrites s.writes id Field.fad + fadInd (recvRun oc f s es) id := by
  intro es
  induction es with
  | nil => intro s _; exact Nat.le_refl _
  | cons e rest ih =>
    intro s hall
    have h1 := recvStep_fad_bound oc f s e id (hall e (by simp))
    have h2 := ih (recvStep oc f s e) (fun e2 h => hall e2 (by simp [h]))
    rw [recvRun_cons]
    omega

theorem recvRun_fad_at_most_once (oc : Nat) (f : List UInt8 → List UInt8)
    (id : String) : ∀ (es : List Event) (s : RecvState),
    (es.filter (isStopFor id)).length ≤ 1 →
    noStopAfterDelta id es = true →
    countWrites s.writes id Field.fad = 0 →
    countWrites (recvRun oc f s es).writes id Field.fad ≤ 1 := by
  intro es
  induction es with
  | nil =>
    intro s _ _ hc
    simpa [recvRun] using Nat.le_of_eq hc |>.trans (by omega)
  | cons e rest ih =>
    intro s h1 h2 hc
    rw [recvRun_cons]
    by_cases hstop : isStopFor id e = true
    · have hrest0 : ∀ e2 ∈ rest, isStopFor id e2 = false := by
        rw [List.filter_cons_of_pos hstop] at h1
        simp only [List.length_cons] at h1
        have h0 : (rest.filter (isStopFor id)).length = 0 := by omega
        intro e2 hmem
        have := List.filter_eq_nil_iff.mp (List.length_eq_zero.mp h0) e2 hmem
        simpa using this
      have hcount2 : countWrites (recvStep oc f s e).writes id Field.fad = 0 := by
        rw [recvStep_count_fad_of_not_delta oc f s e id ?_, hc]
        revert hstop
        cases e <;> simp [isStopFor, isDeltaFor]
      have hb := recvRun_fad_bound oc f id rest (recvStep oc f s e) hrest0
      have hf1 := fadInd_le_one (recvRun oc f (recvStep oc f s e) rest) id
      omega
    · by_cases hdel : isDeltaFor id e = true
      · have hall : ∀ e2 ∈ rest, isStopFor id e2 = false := by
          unfold noStopAfterDelta at h2
          rw [if_pos hdel, Bool.and_eq_true] at h2
          intro e2 hmem
          have := (List.all_eq_true.mp h2.1) e2 hmem
          simpa using this
        have hall0 : ∀ e2 ∈ e :: rest, isStopFor id e2 = false := by
          intro e2 hmem
          rcases List.mem_cons.mp hmem with h | h
          · subst h
            exact Bool.not_eq_true _ ▸ (by simpa using hstop)
          · exact hall e2 h
        have hb := recvRun_fad_bound oc f id (e :: rest) s hall0
        have hf1 := fadInd_le_one (recvRun oc f s (e :: rest)) id
        rw [recvRun_cons] at hb hf1
        omega
      · have hc2 : countWrites (recvStep oc f s e).writes id Field.fad = 0 := by
          rw [recvStep_count_fad_of_not_delta oc f s e id (by simpa using hdel), hc]
        have h1r : (rest.filter (isStopFor id)).length ≤ 1 := by
          by_cases h : isStopFor id e
          · exact absurd h hstop
          · rwa [List.filter_cons_of_neg (by simp [h])] at h1
        have h2r : noStopAfterDelta id rest = true := by
          unfold noStopAfterDelta at h2
          rwa [if_neg (by simpa using hdel)] at h2
        exact ih (recvStep oc f s e) h1r h2r hc2

theorem lookupEpoch_mem (m : List (Nat × String)) (e : Nat) (tid : String)
    (h : lookupEpoch m e = some tid) : (e, tid) ∈ m := by
  induction m with
  | nil => simp [lookupEpoch] at h
  | cons a rest ih =>
    cases a with
    | mk k v =>
      simp only [lookupEpoch] at h
      split at h
      · rename_i hk
        subst hk
        rw [Option.some.injEq] at h
        subst h
        exact List.mem_cons_self _ _
      · exact List.mem_cons_of_mem _ (ih h)

theorem length_filter_eraseEpoch_le (m : List (Nat × String)) (e : Nat)
    (id : String) :
    ((eraseEpoch m e).filter (fun p => p.2 == id)).length ≤
      (m.filter (fun p => p.2 == id)).length := by
  have h : List.Sublist (eraseEpoch m e) m := List.filter_sublist m
  exact (h.filter _).length_le

theorem length_filter_eraseEpoch_lt (m : List (Nat × String)) (e : Nat)
    (id : String) (hmem : (e, id) ∈ m) :
    ((eraseEpoch m e).filter (fun p => p.2 == id)).length + 1 ≤
      (m.filter (fun p => p.2 == id)).length := by
  induction m with
  | nil => simp at hmem
  | cons a rest ih =>
    rcases List.mem_cons.mp hmem with h | h
    · subst h
      have hle := length_filter_eraseEpoch_le rest e id
      simp only [eraseEpoch, List.filter_cons] at *
      simp only [bne_self_eq_false, Bool.false_eq_true, if_false, beq_self_eq_true,
        if_true, List.length_cons]
      omega
    · have hih := ih h
      by_cases hk : a.1 = e
      · have hle := length_filter_eraseEpoch_le rest e id
        simp only [eraseEpoch, List.filter_cons, hk, bne_self_eq_false,
          Bool.false_eq_true, if_false] at *
        by_cases hv : a.2 == id
        · simp only [hv, if_true, List.length_cons]
          omega
        · simp only [hv, Bool.false_eq_true, if_false]
          omega
      · simp only [eraseEpoch, List.filter_cons] at *
        have hk2 : (a.1 != e) = true := by
          simpa using hk
        simp only [hk2, if_true]
        by_cases hv : a.2 == id
        · simp only [hv, if_true, List.filter_cons, List.length_cons]
          omega
        · simp only [hv, Bool.false_eq_true, if_false, List.filter_cons]
          omega

theorem cancelActiveResponse_epochToTurn (s : RecvState) (now : Int) :
    (cancelActiveResponse s now).epochToTurn = s.epochToTurn ∨
      (cancelActiveResponse s now).epochToTurn = [] := by
  unfold cancelActiveResponse
  split
  · exact Or.inl rfl
  · exact Or.inr rfl

theorem audioDeltaStep_played_bound (oc : Nat) (f : List UInt8 → List UInt8)
    (s : RecvState) (raw : List UInt8) (itemId : Option String) (now : Int)
    (id : String) :
    countWrites (audioDeltaStep oc f s raw itemId now).writes id Field.played +
        epochBindings (audioDeltaStep oc f s raw itemId now) id +
        countWrites s.writes id Field.fad ≤
      countWrites s.writes id Field.played + epochBindings s id +
        countWrites (audioDeltaStep oc f s raw itemId now).writes id Field.fad := by
  unfold audioDeltaStep
  dsimp only
  split
  · exact Nat.le_refl _
  · split
    · exact Nat.le_refl _
    · split
      · exact Nat.le_refl _
      · rename_i iid
        split
        · split
          · rename_i epoch heq
            rw [countWrites_append_one, countWrites_append_one]
            simp only [epochBindings, List.filter_cons]
            by_cases hiid : iid = id
            · subst hiid
              simp [Prod.ext_iff]
              omega
            · simp [Prod.ext_iff, hiid]
          · rw [countWrites_append_one, countWrites_append_one]
            by_cases hiid : iid = id
            · subst hiid
              simp [Prod.ext_iff, epochBindings]
            · simp [Prod.ext_iff, hiid, epochBindings]
        · exact Nat.le_refl _

theorem playTrackerStep_played_bound (s : RecvState) (now : Int) (id : String) :
    countWrites (playTrackerStep s now).writes id Field.played +
        epochBindings (playTrackerStep s now) id +
        countWrites s.writes id Field.fad ≤
      countWrites s.writes id Field.played + epochBindings s id +
        countWrites (playTrackerStep s now).writes id Field.fad := by
  unfold playTrackerStep
  split
  · exact Nat.le_refl _
  · rename_i epoch restQ hq
    dsimp only
    split
    · exact Nat.le_refl _
    · rename_i tid hlook
      split
      · have hle := length_filter_eraseEpoch_le s.epochToTurn epoch id
        simp only [epochBindings]
        omega
      · rename_i t hturn
        split
        · have hle := length_filter_eraseEpoch_le s.epochToTurn epoch id
          simp only [epochBindings]
          omega
        · rw [countWrites_append_one, countWrites_append_one]
          by_cases hid : tid = id
          · subst hid
            have hmem : (epoch, tid) ∈ s.epochToTurn := lookupEpoch_mem _ _ _ hlook
            have hlt := length_filter_eraseEpoch_lt s.epochToTurn epoch tid hmem
            simp only [epochBindings, Prod.ext_iff]
            simp
            omega
          · have hle := length_filter_eraseEpoch_le s.epochToTurn epoch id
            simp only [epochBindings, Prod.ext_iff]
            simp [hid]
            omega

theorem recvStep_played_bound (oc : Nat) (f : List UInt8 → List UInt8)
    (s : RecvState) (e : Event) (id : String) :
    countWrites (recvStep oc f s e).writes id Field.played +
        epochBindings (recvStep oc f s e) id +
        countWrites s.writes id Field.fad ≤
      countWrites s.writes id Field.played + epochBindings s id +
        countWrites (recvStep oc f s e).writes id Field.fad := by
  cases e with
  | errorEvent => exact Nat.le_refl _
  | sessionEvent => exact Nat.le_refl _
  | responseCreated respId => cases respId <;> exact Nat.le_refl _
  | responseDone respId =>
    cases respId with
    | none => exact Nat.le_refl _
    | some rid =>
      dsimp only [recvStep]
      split <;> exact Nat.le_refl _
  | speechStarted now =>
    dsimp only [recvStep]
    split
    · obtain ⟨-, hw⟩ := cancelActiveResponse_turns_writes s now
      rw [hw]
      rcases cancelActiveResponse_epochToTurn s now with hm | hm <;>
        simp only [epochBindings, hm] <;> simp
    · exact Nat.le_refl _
  | speechStopped itemId now =>
    cases itemId with
    | none => exact Nat.le_refl _
    | some iid =>
      dsimp only [recvStep]
      rw [countWrites_append_one, countWrites_append_one]
      simp only [epochBindings]
      simp [Prod.ext_iff]
  | asrCompleted => exact Nat.le_refl _
  | ttsTranscriptDelta => exact Nat.le_refl _
  | audioDelta raw itemId respId now =>
    cases raw with
    | none => exact Nat.le_refl _
    | some rawb =>
      cases respId with
      | some rid =>
        dsimp only [recvStep]
        split
        · exact Nat.le_refl _
        · exact audioDeltaStep_played_bound oc f s rawb itemId now id
      | none => exact audioDeltaStep_played_bound oc f s rawb itemId now id
  | audioDone => exact Nat.le_refl _
  | unknown => exact Nat.le_refl _
  | deviceCallback want now =>
    dsimp only [recvStep]
    split <;> exact Nat.le_refl _
  | playTrackerWake now => exact playTrackerStep_played_bound s now id

theorem recvRun_played_bound (oc : Nat) (f : List UInt8 → List UInt8)
    (id : String) : ∀ (es : List Event) (s : RecvState),
    countWrites (recvRun oc f s es).writes id Field.played +
        epochBindings (recvRun oc f s es) id +
        countWrites s.writes id Field.fad ≤
      countWrites s.writes id Field.played + epochBindings s id +
        countWrites (recvRun oc f s es).writes id Field.fad := by
  intro es
  induction es with
  | nil => intro s; exact Nat.le_refl _
  | cons e rest ih =>
    intro s
    have h1 := recvStep_played_bound oc f s e id
    have h2 := ih (recvStep oc f s e)
    rw [recvRun_cons]
    omega

/-- The played pipeline is live in the model: a delta that issues a
play epoch, a device callback signalling it, and a play-tracker
wake-up stamp `first_audio_played_ms` exactly once. -/
theorem recvRun_played_write_reachable :
    countWrites
      (recvRun 1 id (initState 1)
        [Event.speechStopped (some "T") 100,
         Event.audioDelta (some [1, 2]) (some "T") (some "R") 150,
         Event.deviceCallback 2 160,
         Event.playTrackerWake 170]).writes
      "T" Field.played = 1 := by
  decide

/-- Without the well-ordering restriction, `first_audio_played_ms`
can also be written twice: a `speech_stopped` arriving after the
turn's first audible stamp replaces the ledger record, and a second
delta→callback→wake round stamps the fresh record again. -/
theorem recvRun_played_write_twice_without_restriction :
    countWrites
      (recvRun 1 id (initState 1)
        [Event.audioDelta (some [1, 2]) (some "T") (some "R") 150,
         Event.deviceCallback 2 160,
         Event.playTrackerWake 170,
         Event.speechStopped (some "T") 200,
         Event.audioDelta (some [3, 4]) (some "T") (some "R") 210,
         Event.deviceCallback 2 220,
         Event.playTrackerWake 230]).writes
      "T" Field.played = 2 := by
  decide

end Realtime

/-- C4 counterexample: two `speech_stopped` events with the same turn
ID make the receiver write `eos_proxy_ms` for that turn twice (the
handler replaces the ledger record unconditionally), refuting "each
field is written at most once" over arbitrary event sequences. -/
theorem ttfa_eos_written_twice :
    ¬ (Realtime.countWrites
        (Realtime.recvRun 1 id (Realtime.initState 1)
          [Realtime.Event.speechStopped (some "T") 100,
           Realtime.Event.speechStopped (some "T") 200]).writes
        "T" Realtime.Field.eos ≤ 1) := by
  decide

/-- C4 amended: over session event sequences in which each turn ID
receives at most one `speech_stopped` event and no `speech_stopped`
for a turn arrives after an audio delta of that turn (the normal
protocol order), each of the three TTFA ledger fields is written at
most once per turn ID; without this restriction a repeated or late
`speech_stopped` replaces the turn's record and allows a second
write, as the counterexample forces. -/
theorem ttfa_fields_written_at_most_once (oc c : Nat)
    (f : List UInt8 → List UInt8) (es : List Realtime.Event) (id : String)
    (fld : Realtime.Field)
    (h1 : (es.filter (Realtime.isStopFor id)).length ≤ 1)
    (h2 : Realtime.noStopAfterDelta id es = true) :
    Realtime.countWrites
      (Realtime.recvRun oc f (Realtime.initState c) es).writes id fld ≤ 1 := by
  have hc0 : ∀ fld2, Realtime.countWrites (Realtime.initState c).writes id fld2 = 0 := by
    intro fld2
    rfl
  cases fld with
  | eos =>
    rw [Realtime.recvRun_count_eos oc f id es (Realtime.initState c), hc0]
    omega
  | fad =>
    exact Realtime.recvRun_fad_at_most_once oc f id es (Realtime.initState c)
      h1 h2 (hc0 _)
  | played =>
    have hb := Realtime.recvRun_played_bound oc f id es (Realtime.initState c)
    have hfad := Realtime.recvRun_fad_at_most_once oc f id es
      (Realtime.initState c) h1 h2 (hc0 _)
    have h0b : Realtime.epochBindings (Realtime.initState c) id = 0 := rfl
    have h0p := hc0 Realtime.Field.played
    have h0f := hc0 Realtime.Field.fad
    omega

/-- C4 witness: a well-ordered trace that drives the whole played
pipeline — `speech_stopped` for turn `T`, an audio delta of `T` that
issues a play epoch and binds it to `T`, a device callback that
signals the epoch, and a play-tracker wake-up that stamps
`first_audio_played_ms` — writes the `played` field at most once. -/
theorem ttfa_fields_written_at_most_once_witness :
    Realtime.countWrites
      (Realtime.recvRun 1 id (Realtime.initState 1)
        [Realtime.Event.speechStopped (some "T") 100,
         Realtime.Event.audioDelta (some [1, 2]) (some "T") (some "R") 150,
         Realtime.Event.deviceCallback 2 160,
         Realtime.Event.playTrackerWake 170]).writes
      "T" Realtime.Field.played ≤ 1 :=
  ttfa_fields_written_at_most_once 1 1 id
    [Realtime.Event.speechStopped (some "T") 100,
     Realtime.Event.audioDelta (some [1, 2]) (some "T") (some "R") 150,
     Realtime.Event.deviceCallback 2 160,
     Realtime.Event.playTrackerWake 170]
    "T" Realtime.Field.played (by decide) (by decide)

end VrchatEidolon
